import Mathlib

/-!
Shallow embedding of the poke-backend card-processing server.

The embedded code is `src/server/index.js` (the current revision of the
server, the authority for the heuristics) together with the two extraction
helpers of the earlier revision `src/unnamed/part_001` that the claims also
cite (`findCardNumber`, `findTotalCardsInSet`).

Modelling conventions:
* JS strings are `String` (a wrapped `List Char`); `null`/`undefined` is
  `none`; JS string truthiness (`if (s)`) is `jsTruthyStr`.
* JS numbers that carry prices are `Rat` (exact; the claims under study do
  not depend on binary floating-point artefacts, only on the `||` chains,
  whose behaviour depends solely on null/zero tests).
* The regexes of the source (`/\b(\d{1,3})\/(\d{1,3})\b/`,
  `/\b(SWSH|SM|XY|BW|DP|HGSS)(\d{1,4})\b/`, `/\d+\/\d+/`) are embedded as
  explicit leftmost-match scanners with the same greedy/backtracking
  semantics; `\b` is a word-boundary over `[A-Za-z0-9_]`.
* External collaborators (the catalog HTTP API, base64 decoding, the sharp
  metadata probe, the OCR engine) are explicit function arguments; a caught
  exception from the catalog call is `Except.error ()`.
* S3 writes performed by the request handler are returned as an ordered
  list, so that persistence-related claims can be stated.
-/

namespace PokeBackend

/-- JS regex `\w` character class: `[A-Za-z0-9_]`. -/
def isWordChar (c : Char) : Bool := c.isAlpha || c.isDigit || c = '_'

/-- JS whitespace, for `trim` and the `\s` of `toTitleCase` (ASCII part). -/
def jsWs (c : Char) : Bool :=
  c = ' ' || c = '\t' || c = '\n' || c = '\r' || c = '\x0b' || c = '\x0c'

/-- `String.prototype.toUpperCase`, character-wise (adequate for ASCII). -/
def jsToUpper (l : List Char) : List Char := l.map Char.toUpper

/-- `text.toUpperCase()` at the `String` level. -/
def upperOf (s : String) : String := String.mk (jsToUpper s.data)

/-- `String.prototype.trim`. -/
def trimChars (l : List Char) : List Char :=
  ((l.dropWhile jsWs).reverse.dropWhile jsWs).reverse

/-- `text.split('\n')` (keeps empty segments, as JS does). -/
def splitLines : List Char → List (List Char)
  | [] => [[]]
  | c :: rest =>
    if c = '\n' then [] :: splitLines rest
    else
      match splitLines rest with
      | [] => [[c]]
      | l :: ls => (c :: l) :: ls

/-- `hay.includes(needle)`: scan for `needle` as a contiguous substring. -/
def containsSub : List Char → List Char → Bool
  | [], needle => needle.isEmpty
  | c :: t, needle => needle.isPrefixOf (c :: t) || containsSub t needle

/-- `hay.includes(needle)` at the `String` level. -/
def containsS (hay needle : String) : Bool := containsSub hay.data needle.data

/-- Kernel of `toTitleCase` (`src/server/index.js` lines 73-75): the string is
lowercased, then every word character at the start or right after a
whitespace character is uppercased (`.replace(/(^|\s)\w/g, up)`). The flag
records whether the previous character was the start or whitespace. -/
def toTitleCaseAux : Bool → List Char → List Char
  | _, [] => []
  | afterWs, c :: rest =>
    let lc := c.toLower
    if afterWs && isWordChar lc then lc.toUpper :: toTitleCaseAux false rest
    else lc :: toTitleCaseAux (jsWs lc) rest

/-- `toTitleCase` (`src/server/index.js` lines 73-75). -/
def toTitleCase (s : String) : String := String.mk (toTitleCaseAux true s.data)

/-- `findPokemonName` (`src/server/index.js` lines 77-87). The vocabulary
`names` models the uppercased `pokemon_names.txt` word list (a data file of
the deployment, not part of the source tree), so it is a parameter: first
line (in order) containing some vocabulary name (in order) wins. -/
def findPokemonName (names : List String) (text : String) : String :=
  let lines := (splitLines text.data).map fun l => jsToUpper (trimChars l)
  match lines.findSome? (fun line => names.find? fun nm => containsSub line nm.data) with
  | some nm => toTitleCase nm
  | none => "Unknown"

/-- The `evolutionStages` list (`src/server/index.js` line 39). -/
def evolutionStages : List String := ["BASIC", "STAGE 1", "STAGE 2", "V", "VSTAR", "VMAX"]

/-- The keyword loop of `findEvolutionStage` (lines 95-98): first stage
keyword of `evolutionStages` contained in the uppercased text, else
`"Unknown"`. -/
def stageScan (upperText : String) : String :=
  match evolutionStages.find? (fun stage => containsS upperText stage) with
  | some stage => stage
  | none => "Unknown"

/-- `findEvolutionStage` (`src/server/index.js` lines 89-99). -/
def findEvolutionStage (text : String) : String :=
  let upperText := upperOf text
  if containsS upperText "EVOLVES FROM" then
    if containsS upperText "STAGE2" || containsS upperText "STAGE 2" then "STAGE 2"
    else if containsS upperText "STAGE1" || containsS upperText "STAGE 1" ||
        containsS upperText "STAGE" then "STAGE 1"
    else stageScan upperText
  else stageScan upperText

/-- One `\d{1,k}` attempt of exact length `k`: the first `k` characters, if
they exist and are all digits, plus the rest of the input. -/
def numThen (cs : List Char) (k : Nat) : Option (List Char × List Char) :=
  let n := cs.take k
  if n.length = k ∧ n.all Char.isDigit = true then some (n, cs.drop k) else none

/-- `\b` after a match: end of input or a non-word character next. -/
def boundaryAfter : List Char → Bool
  | [] => true
  | c :: _ => !isWordChar c

/-- One attempt of the trailing `(\d{1,3})\b` with exactly `j` digits. -/
def group2Try (cs : List Char) (j : Nat) : Option (List Char) :=
  match numThen cs j with
  | some (m, rest) => if boundaryAfter rest then some m else none
  | none => none

/-- Greedy `(\d{1,3})\b`: try three digits, then two, then one. -/
def slashGroup2 (cs : List Char) : Option (List Char) :=
  (group2Try cs 3).orElse fun _ => (group2Try cs 2).orElse fun _ => group2Try cs 1

/-- One attempt of `(\d{1,3})\/(\d{1,3})\b` with exactly `k` leading digits. -/
def group1Try (cs : List Char) (k : Nat) : Option (List Char × List Char) :=
  match numThen cs k with
  | some (n, rest) =>
    match rest with
    | '/' :: rest2 => (slashGroup2 rest2).map fun m => (n, m)
    | _ => none
  | none => none

/-- `/\b(\d{1,3})\/(\d{1,3})\b/` attempted at the current position (the `\b`
before the position is checked by the caller), greedy on the first group. -/
def slashHere (cs : List Char) : Option (List Char × List Char) :=
  (group1Try cs 3).orElse fun _ => (group1Try cs 2).orElse fun _ => group1Try cs 1

/-- Leftmost-match scan for `/\b(\d{1,3})\/(\d{1,3})\b/`; `prevWord` records
whether the previous character was a word character (then no `\b` holds at
the current position and the regex engine moves on). -/
def slashScanAux : Bool → List Char → Option (List Char × List Char)
  | _, [] => none
  | prevWord, c :: rest =>
    if prevWord then slashScanAux (isWordChar c) rest
    else
      match slashHere (c :: rest) with
      | some r => some r
      | none => slashScanAux (isWordChar c) rest

/-- `text.match(/\b(\d{1,3})\/(\d{1,3})\b/)`, returning the two capture
groups of the leftmost match. -/
def slashScan (cs : List Char) : Option (List Char × List Char) := slashScanAux false cs

/-- The promo-prefix alternation of `src/server/index.js` line 120, in the
source's order. -/
def promoPrefixes : List String := ["SWSH", "SM", "XY", "BW", "DP", "HGSS"]

/-- One attempt of the trailing `(\d{1,4})\b` with exactly `j` digits. -/
def promoDigitsTry (cs : List Char) (j : Nat) : Option (List Char) :=
  match numThen cs j with
  | some (d, rest) => if boundaryAfter rest then some d else none
  | none => none

/-- Greedy `(\d{1,4})\b`: try four digits down to one. -/
def promoDigits (cs : List Char) : Option (List Char) :=
  (promoDigitsTry cs 4).orElse fun _ => (promoDigitsTry cs 3).orElse fun _ =>
    (promoDigitsTry cs 2).orElse fun _ => promoDigitsTry cs 1

/-- `/\b(SWSH|SM|XY|BW|DP|HGSS)(\d{1,4})\b/` attempted at the current
position: the alternatives are tried in order, each with the greedy digit
group behind it. -/
def promoHere (cs : List Char) : Option (List Char × List Char) :=
  promoPrefixes.findSome? fun p =>
    if p.data.isPrefixOf cs then (promoDigits (cs.drop p.data.length)).map fun d => (p.data, d)
    else none

/-- Leftmost-match scan for the promo regex, as `slashScanAux`. -/
def promoScanAux : Bool → List Char → Option (List Char × List Char)
  | _, [] => none
  | prevWord, c :: rest =>
    if prevWord then promoScanAux (isWordChar c) rest
    else
      match promoHere (c :: rest) with
      | some r => some r
      | none => promoScanAux (isWordChar c) rest

/-- `text.match(/\b(SWSH|SM|XY|BW|DP|HGSS)(\d{1,4})\b/)`, returning the two
capture groups of the leftmost match. -/
def promoScan (cs : List Char) : Option (List Char × List Char) := promoScanAux false cs

/-- The static `promoPrefixToSetId` table (`src/server/index.js` lines
102-109). -/
def promoPrefixTable : List (String × String) :=
  [("SWSH", "swshp"), ("SM", "smp"), ("XY", "xyp"), ("BW", "bwp"),
   ("DP", "dpp"), ("HGSS", "hgssp")]

/-- `promoPrefixToSetId[p] || null`. -/
def promoPrefixToSetId (p : String) : Option String :=
  (promoPrefixTable.find? fun e => e.1 = p).map (·.2)

/-- The result record of `extractCardInfo`. -/
structure CardNumInfo where
  cardNumber : Option String
  totalCardsInSet : Option String
  setId : Option String
deriving DecidableEq

/-- `extractCardInfo` (`src/server/index.js` lines 101-129): uppercase the
text; on a `<digits>/<digits>` match return the left group with its leading
zeros deleted (`.replace(/^0+/, '')`) and the right group verbatim;
otherwise on a promo match return `prefix+digits` and the table set id;
otherwise all-null. -/
def extractCardInfo (text : String) : CardNumInfo :=
  let t := jsToUpper text.data
  match slashScan t with
  | some (n, m) =>
    { cardNumber := some (String.mk (n.dropWhile (· = '0')))
      totalCardsInSet := some (String.mk m)
      setId := none }
  | none =>
    match promoScan t with
    | some (p, d) =>
      { cardNumber := some (String.mk (p ++ d))
        totalCardsInSet := none
        setId := promoPrefixToSetId (String.mk p) }
    | none => { cardNumber := none, totalCardsInSet := none, setId := none }

/-- `/\d+\/\d+/` attempted at the current position (used by the `part_001`
helpers): a maximal nonempty digit run, a slash, then the following maximal
nonempty digit run. -/
def plainSlashHere (cs : List Char) : Option (List Char × List Char) :=
  let r := cs.takeWhile Char.isDigit
  if r.isEmpty then none
  else
    match cs.drop r.length with
    | '/' :: rest =>
      let m := rest.takeWhile Char.isDigit
      if m.isEmpty then none else some (r, m)
    | _ => none

/-- Leftmost match of `/\d+\/\d+/`, split at its slash. -/
def plainSlashScan : List Char → Option (List Char × List Char)
  | [] => none
  | c :: rest =>
    match plainSlashHere (c :: rest) with
    | some r => some r
    | none => plainSlashScan rest

/-- Decimal value of an all-digit string (`parseInt(s, 10)` for such `s`). -/
def digitsToNat (l : List Char) : Nat := l.foldl (fun a c => a * 10 + (c.toNat - 48)) 0

/-- `findCardNumber` (`src/unnamed/part_001` lines 189-196): left operand of
the first `\d+\/\d+` match, normalized by `parseInt(_, 10).toString()`. -/
def findCardNumber (text : String) : String :=
  match plainSlashScan text.data with
  | some (n, _) => Nat.repr (digitsToNat n)
  | none => "Unknown"

/-- `findTotalCardsInSet` (`src/unnamed/part_001` lines 198-205): right
operand of the first `\d+\/\d+` match, verbatim. -/
def findTotalCardsInSet (text : String) : String :=
  match plainSlashScan text.data with
  | some (_, m) => String.mk m
  | none => "Unknown"

/-- The hardcoded seed `setMap` (`src/server/index.js` lines 42-47). -/
def initialSetMap : List (String × String) :=
  [("203", "swsh7"), ("198", "swsh9"), ("189", "swsh10"), ("072", "swsh45")]

/-- JS object property read `m[key]` (`undefined` is `none`). -/
def lookupSM (m : List (String × String)) (key : String) : Option String :=
  (m.find? fun e => e.1 = key).map (·.2)

/-- JS object property write `m[k] = v` (overwrites an existing key). -/
def insertSM (m : List (String × String)) (k v : String) : List (String × String) :=
  (m.filter fun e => e.1 ≠ k) ++ [(k, v)]

/-- One element of the catalog `GET /sets` payload, with the two total
fields used by `fetchSetData`. -/
structure SetInfo where
  id : String
  printedTotal : Option Nat
  total : Option Nat

/-- `set.printedTotal || set.total || 0`: zero and absent are both falsy. -/
def setTotalOf (s : SetInfo) : Nat :=
  match s.printedTotal with
  | some n => if n = 0 then s.total.getD 0 else n
  | none => s.total.getD 0

/-- The `newSetMap` object built in `fetchSetData` (lines 56-62): insert
`total.toString() → id` for each set with a positive total, later sets
overwriting earlier ones. -/
def buildNewMap (sets : List SetInfo) : List (String × String) :=
  sets.foldl (fun m s =>
    let total := setTotalOf s
    if total > 0 then insertSM m (Nat.repr total) s.id else m) []

/-- `setMap = { ...setMap, ...newSetMap }`: the new map's properties
override the old ones. -/
def jsMergeSM (old extra : List (String × String)) : List (String × String) :=
  extra.foldl (fun m e => insertSM m e.1 e.2) old

/-- `fetchSetData` (`src/server/index.js` lines 49-69) with the HTTP fetch
made an explicit argument: on success the rebuilt map is merged over the
current one; on failure the `catch` only logs, so the current map is kept. -/
def fetchSetData (current : List (String × String)) (resp : Except Unit (List SetInfo)) :
    List (String × String) :=
  match resp with
  | .ok sets => jsMergeSM current (buildNewMap sets)
  | .error _ => current

/-- One card of the catalog `GET /cards` payload; the nested optional chains
(`cardmarket?.prices?.averageSellPrice` etc.) are flattened into one
optional field each. -/
structure Card where
  name : Option String
  number : Option String
  setId : Option String
  setName : Option String
  rarity : Option String
  subtypes : Option (List String)
  cardmarketAvg : Option Rat
  tcgplayerNormal : Option Rat
  tcgplayerHolofoil : Option Rat
deriving DecidableEq

/-- The resolved pricing record returned by `getCardPrice`. -/
structure PriceQuote where
  name : Option String
  number : Option String
  setId : Option String
  setName : Option String
  rarity : Option String
  subtypes : Option (List String)
  cardmarketPrice : Option Rat
  tcgplayerPrice : Option Rat
  selectedPrice : Option Rat
deriving DecidableEq

/-- The all-null quote of the `catch` block (lines 175-185). -/
def allNullQuote : PriceQuote :=
  ⟨none, none, none, none, none, none, none, none, none⟩

/-- JS `a || b` on a nullable number: absence and `0` both fall through. -/
def numOrElse (a b : Option Rat) : Option Rat :=
  match a with
  | some v => if v = 0 then b else some v
  | none => b

/-- JS `s || null` on a nullable string: the empty string falls through. -/
def strOrNull (a : Option String) : Option String :=
  match a with
  | some s => if s.data.isEmpty then none else some s
  | none => none

/-- Lines 156-172 of `src/server/index.js`: take `cards[0]` (or null) and
derive the quote fields through the JS `||` fallback chains. -/
def quoteOfCards (cards : List Card) : PriceQuote :=
  match cards.head? with
  | none => allNullQuote
  | some c =>
    { name := strOrNull c.name
      number := strOrNull c.number
      setId := strOrNull c.setId
      setName := strOrNull c.setName
      rarity := strOrNull c.rarity
      subtypes := c.subtypes
      cardmarketPrice := numOrElse c.cardmarketAvg none
      tcgplayerPrice := numOrElse c.tcgplayerNormal (numOrElse c.tcgplayerHolofoil none)
      selectedPrice :=
        numOrElse c.cardmarketAvg
          (numOrElse c.tcgplayerNormal (numOrElse c.tcgplayerHolofoil none)) }

/-- JS string truthiness for the `if (s)` tests: null/undefined and the
empty string are falsy. -/
def jsTruthyStr (s : Option String) : Bool :=
  match s with
  | some v => !v.data.isEmpty
  | none => false

/-- The `if (query) query += ' '; query += clause` pattern (lines 140-144). -/
def appendClause (q clause : String) : String :=
  if q.data.isEmpty then clause else q ++ " " ++ clause

/-- The query construction of `getCardPrice` (`src/server/index.js` lines
133-145): a `number:` clause when the card number is truthy, then a
`set.id:` clause from the override set id if truthy, else from the
`setMap` lookup of the total if that is truthy. -/
def buildQuery (cardNumber totalCardsInSet overrideSetId : Option String)
    (setMap : List (String × String)) : String :=
  let q := if jsTruthyStr cardNumber then "number:" ++ cardNumber.getD "" else ""
  if jsTruthyStr overrideSetId then appendClause q ("set.id:" ++ overrideSetId.getD "")
  else
    let sid := match totalCardsInSet with
      | some t => lookupSM setMap t
      | none => none
    if jsTruthyStr sid then appendClause q ("set.id:" ++ sid.getD "") else q

/-- `getCardPrice` (`src/server/index.js` lines 131-187). The axios call is
the explicit `catalog` argument (`Except.error ()` standing for any
rejection caught by the `try`/`catch`); the process-wide `setMap` is passed
explicitly. The second component is the ordered list of catalog queries
issued during the call. -/
def getCardPrice (catalog : String → Except Unit (List Card))
    (setMap : List (String × String))
    (cardNumber totalCardsInSet overrideSetId : Option String) :
    PriceQuote × List String :=
  let q := buildQuery cardNumber totalCardsInSet overrideSetId setMap
  match catalog q with
  | .ok cards => (quoteOfCards cards, [q])
  | .error _ => (allNullQuote, [q])

/-- The final persisted document (lines 257-270). -/
structure CardRecord where
  name : Option String
  number : Option String
  setId : Option String
  setName : Option String
  rarity : Option String
  subtypes : Option (List String)
  cardmarketPrice : Option Rat
  tcgplayerPrice : Option Rat
  selectedPrice : Option Rat
  evolution : String
  fullText : String
  imageUrl : String
deriving DecidableEq

/-- Body of one S3 `putObject`. -/
inductive WriteBody where
  | bytes (b : List Nat)
  | json (r : CardRecord)
deriving DecidableEq

/-- One S3 `putObject` call, keyed. -/
structure S3Write where
  key : String
  body : WriteBody
deriving DecidableEq

/-- The HTTP response of the handler. -/
inductive HResponse where
  | ok (r : CardRecord)
  | badRequest (msg : String)
deriving DecidableEq

/-- `isValidImage` (`src/server/index.js` lines 189-201): the JPEG signature
check on the first two bytes, then the sharp metadata probe (`sharpOk`
models whether `sharp(buffer).metadata()` succeeds; a throw is `false`). -/
def isValidImage (sharpOk : List Nat → Bool) (buffer : List Nat) : Bool :=
  (buffer.take 2 == [0xff, 0xd8]) && sharpOk buffer

/-- The characters of `s.split(',')[1]`: after the first comma, up to the
next comma or the end. -/
def afterComma : List Char → List Char
  | [] => []
  | c :: rest =>
    if c = ',' then rest.takeWhile (fun d => d ≠ ',')
    else afterComma rest

/-- `imageBase64.split(',')[1]`. -/
def payloadOf (s : String) : String := String.mk (afterComma s.data)

/-- Lines 251-270 of the handler: run the extraction heuristics on the OCR
text, resolve the price, and assemble the persisted record (whose identity
fields come from the resolved catalog card, not from the extraction). -/
def pipelineRecord (names : List String) (setMap : List (String × String))
    (catalog : String → Except Unit (List Card)) (text imageUrl : String) : CardRecord :=
  let _nm := findPokemonName names text
  let evolution := findEvolutionStage text
  let info := extractCardInfo text
  let cardDetails :=
    (getCardPrice catalog setMap info.cardNumber info.totalCardsInSet info.setId).1
  { name := cardDetails.name
    number := cardDetails.number
    setId := cardDetails.setId
    setName := cardDetails.setName
    rarity := cardDetails.rarity
    subtypes := cardDetails.subtypes
    cardmarketPrice := cardDetails.cardmarketPrice
    tcgplayerPrice := cardDetails.tcgplayerPrice
    selectedPrice := cardDetails.selectedPrice
    evolution := evolution
    fullText := text
    imageUrl := imageUrl }

/-- The `POST /process-card` handler (`src/server/index.js` lines 218-284),
with every external collaborator an explicit argument: `decodeB64` models
`Buffer.from(_, 'base64')`, `sharpOk` the sharp metadata probe, `ocr` the
Vision `textDetection` result (`none` = no annotation), `catalog` the card
catalog call, `id` the request identifier and `bucket`/`region` the storage
configuration. Returns the HTTP response and the ordered list of storage
writes performed. -/
def processCard (imageBase64 : Option String) (decodeB64 : String → List Nat)
    (sharpOk : List Nat → Bool) (ocr : List Nat → Option String)
    (names : List String) (setMap : List (String × String))
    (catalog : String → Except Unit (List Card))
    (id bucket region : String) : HResponse × List S3Write :=
  if !(jsTruthyStr imageBase64 && (imageBase64.getD "").data.contains ',') then
    (.badRequest "Invalid base64 image", [])
  else
    let s := imageBase64.getD ""
    let buffer := decodeB64 (payloadOf s)
    if !isValidImage sharpOk buffer then
      (.badRequest "Invalid or corrupted image",
        [⟨"invalid-images/" ++ id ++ ".jpg", .bytes buffer⟩])
    else
      let imageKey := id ++ ".jpg"
      let imageUrl := "https://" ++ bucket ++ ".s3." ++ region ++ ".amazonaws.com/" ++ imageKey
      let text := (ocr buffer).getD "No text found"
      let record := pipelineRecord names setMap catalog text imageUrl
      (.ok record, [⟨imageKey, .bytes buffer⟩, ⟨id ++ ".json", .json record⟩])

/-! Substring lemmas -/

theorem orElse_none {α : Type*} (f : Unit → Option α) : (Option.orElse none f) = f () := rfl

theorem orElse_some {α : Type*} (a : α) (f : Unit → Option α) :
    (Option.orElse (some a) f) = some a := rfl

theorem prefixBool_iff (l₁ l₂ : List Char) : l₁.isPrefixOf l₂ = true ↔ l₁ <+: l₂ :=
  List.isPrefixOf_iff_prefix

theorem containsSub_iff (hay needle : List Char) :
    containsSub hay needle = true ↔ needle <:+: hay := by
  induction hay with
  | nil => simp [containsSub, List.isEmpty_iff, List.infix_nil]
  | cons c t ih =>
    simp only [containsSub, Bool.or_eq_true, prefixBool_iff, ih, List.infix_cons_iff]

theorem containsSub_mono {hay n m : List Char} (hm : m <:+: n)
    (h : containsSub hay n = true) : containsSub hay m = true := by
  rw [containsSub_iff] at h ⊢
  exact hm.trans h

theorem containsS_mono {hay n m : String} (hm : m.data <:+: n.data)
    (h : containsS hay n = true) : containsS hay m = true :=
  containsSub_mono hm h

theorem containsS_false_mono {hay n m : String} (hm : m.data <:+: n.data)
    (h : containsS hay m = false) : containsS hay n = false := by
  cases hcn : containsS hay n with
  | false => rfl
  | true => exact absurd (containsS_mono hm hcn) (by simp [containsS] at h ⊢; exact h)

/-! Character and digit-run lemmas -/

theorem toUpper_digit (c : Char) (h : c.isDigit = true) : c.toUpper = c := by
  simp only [Char.isDigit, Bool.and_eq_true, decide_eq_true_eq] at h
  unfold Char.toUpper
  rw [if_neg]
  rintro ⟨h1, _⟩
  have h2 : c.toNat ≤ 57 := h.2
  have h3 : (97 : Nat) ≤ c.toNat := h1
  omega

theorem upper_digits (l : List Char) (h : l.all Char.isDigit = true) :
    l.map Char.toUpper = l := by
  induction l with
  | nil => rfl
  | cons c t ih =>
    rw [List.all_cons, Bool.and_eq_true] at h
    rw [List.map_cons, toUpper_digit c h.1, ih h.2]

theorem takeWhile_all_append (p : Char → Bool) (l r : List Char) (h : l.all p = true) :
    (l ++ r).takeWhile p = l ++ r.takeWhile p := by
  induction l with
  | nil => rfl
  | cons c t ih =>
    rw [List.all_cons, Bool.and_eq_true] at h
    simp [List.takeWhile_cons, h.1, ih h.2]

theorem takeWhile_all (p : Char → Bool) (l : List Char) (h : l.all p = true) :
    l.takeWhile p = l := by
  simpa using takeWhile_all_append p l [] h

/-! Scanner lemmas for the slash regex -/

theorem numThen_exact (n r : List Char) (hd : n.all Char.isDigit = true) :
    numThen (n ++ r) n.length = some (n, r) := by
  simp [numThen, List.take_left, List.drop_left, hd]

theorem numThen_short (cs : List Char) (k : Nat) (hk : cs.length < k) :
    numThen cs k = none := by
  simp only [numThen]
  rw [if_neg]
  rintro ⟨h1, -⟩
  rw [List.length_take] at h1
  omega

theorem numThen_slash_none (n m : List Char) (k : Nat) (hk : n.length < k) :
    numThen (n ++ '/' :: m) k = none := by
  rcases le_or_lt k (n ++ '/' :: m).length with hle | hgt
  · simp only [numThen]
    rw [if_neg]
    rintro ⟨-, hall⟩
    have htake : (n ++ '/' :: m).take k = n ++ ('/' :: m).take (k - n.length) := by
      obtain ⟨i, rfl⟩ : ∃ i, k = n.length + i := ⟨k - n.length, by omega⟩
      rw [List.take_append, Nat.add_sub_cancel_left]
    have hmem : '/' ∈ (n ++ '/' :: m).take k := by
      rw [htake]
      refine List.mem_append_right _ ?_
      obtain ⟨j, hj⟩ : ∃ j, k - n.length = j + 1 := ⟨k - n.length - 1, by omega⟩
      rw [hj, List.take_succ_cons]
      exact List.mem_cons_self _ _
    rw [List.all_eq_true] at hall
    have := hall _ hmem
    simp at this
  · exact numThen_short _ _ hgt

theorem group2Try_exact (m : List Char) (hd : m.all Char.isDigit = true) :
    group2Try m m.length = some m := by
  unfold group2Try
  have h := numThen_exact m [] hd
  rw [List.append_nil] at h
  rw [h]
  rfl

theorem group2Try_over (m : List Char) (k : Nat) (hk : m.length < k) :
    group2Try m k = none := by
  unfold group2Try
  rw [numThen_short m k hk]

theorem slashGroup2_eq (m : List Char) (h0 : m ≠ []) (h3 : m.length ≤ 3)
    (hd : m.all Char.isDigit = true) : slashGroup2 m = some m := by
  have h1 : 0 < m.length := List.length_pos.mpr h0
  rcases (by omega : m.length = 1 ∨ m.length = 2 ∨ m.length = 3) with h | h | h
  · simp only [slashGroup2, group2Try_over m 3 (by omega), group2Try_over m 2 (by omega),
      orElse_none]
    exact h ▸ group2Try_exact m hd
  · simp only [slashGroup2, group2Try_over m 3 (by omega), orElse_none]
    have he := group2Try_exact m hd
    rw [h] at he
    rw [he, orElse_some]
  · simp only [slashGroup2]
    have he := group2Try_exact m hd
    rw [h] at he
    rw [he, orElse_some]

theorem group1Try_exact (n m : List Char) (hnd : n.all Char.isDigit = true)
    (hm0 : m ≠ []) (hm3 : m.length ≤ 3) (hmd : m.all Char.isDigit = true) :
    group1Try (n ++ '/' :: m) n.length = some (n, m) := by
  unfold group1Try
  rw [numThen_exact n ('/' :: m) hnd]
  simp [slashGroup2_eq m hm0 hm3 hmd]

theorem group1Try_over (n m : List Char) (k : Nat) (hk : n.length < k) :
    group1Try (n ++ '/' :: m) k = none := by
  unfold group1Try
  rw [numThen_slash_none n m k hk]

theorem slashHere_eq (n m : List Char) (hn0 : n ≠ []) (hn3 : n.length ≤ 3)
    (hnd : n.all Char.isDigit = true) (hm0 : m ≠ []) (hm3 : m.length ≤ 3)
    (hmd : m.all Char.isDigit = true) :
    slashHere (n ++ '/' :: m) = some (n, m) := by
  have h1 : 0 < n.length := List.length_pos.mpr hn0
  rcases (by omega : n.length = 1 ∨ n.length = 2 ∨ n.length = 3) with h | h | h
  · simp only [slashHere, group1Try_over n m 3 (by omega), group1Try_over n m 2 (by omega),
      orElse_none]
    exact h ▸ group1Try_exact n m hnd hm0 hm3 hmd
  · simp only [slashHere, group1Try_over n m 3 (by omega), orElse_none]
    have he := group1Try_exact n m hnd hm0 hm3 hmd
    rw [h] at he
    rw [he, orElse_some]
  · simp only [slashHere]
    have he := group1Try_exact n m hnd hm0 hm3 hmd
    rw [h] at he
    rw [he, orElse_some]

theorem slashScan_eq (n m : List Char) (hn0 : n ≠ []) (hn3 : n.length ≤ 3)
    (hnd : n.all Char.isDigit = true) (hm0 : m ≠ []) (hm3 : m.length ≤ 3)
    (hmd : m.all Char.isDigit = true) :
    slashScan (n ++ '/' :: m) = some (n, m) := by
  have hh := slashHere_eq n m hn0 hn3 hnd hm0 hm3 hmd
  obtain ⟨a, t, rfl⟩ := List.exists_cons_of_ne_nil hn0
  rw [List.cons_append] at hh
  show slashScanAux false ((a :: t) ++ '/' :: m) = some (a :: t, m)
  rw [List.cons_append]
  unfold slashScanAux
  rw [if_neg (by simp)]
  rw [hh]

theorem jsToUpper_slash (n m : List Char) (hnd : n.all Char.isDigit = true)
    (hmd : m.all Char.isDigit = true) :
    jsToUpper (n ++ '/' :: m) = n ++ '/' :: m := by
  unfold jsToUpper
  rw [List.map_append, List.map_cons, upper_digits n hnd, upper_digits m hmd,
    show '/'.toUpper = '/' from by decide]

theorem extractCardInfo_slash (n m : List Char) (hn0 : n ≠ []) (hn3 : n.length ≤ 3)
    (hnd : n.all Char.isDigit = true) (hm0 : m ≠ []) (hm3 : m.length ≤ 3)
    (hmd : m.all Char.isDigit = true) :
    extractCardInfo (String.mk (n ++ '/' :: m)) =
      ⟨some (String.mk (n.dropWhile (· = '0'))), some (String.mk m), none⟩ := by
  unfold extractCardInfo
  show (match slashScan (jsToUpper (n ++ '/' :: m)) with
    | some (n, m) =>
      CardNumInfo.mk (some (String.mk (n.dropWhile (· = '0')))) (some (String.mk m)) none
    | none =>
      match promoScan (jsToUpper (n ++ '/' :: m)) with
      | some (p, d) =>
        CardNumInfo.mk (some (String.mk (p ++ d))) none (promoPrefixToSetId (String.mk p))
      | none => CardNumInfo.mk none none none) = _
  rw [jsToUpper_slash n m hnd hmd, slashScan_eq n m hn0 hn3 hnd hm0 hm3 hmd]

theorem plainSlashHere_eq (n m : List Char) (hn0 : n ≠ [])
    (hnd : n.all Char.isDigit = true) (hm0 : m ≠ []) (hmd : m.all Char.isDigit = true) :
    plainSlashHere (n ++ '/' :: m) = some (n, m) := by
  unfold plainSlashHere
  simp only [takeWhile_all_append Char.isDigit n ('/' :: m) hnd,
    show ('/' :: m).takeWhile Char.isDigit = [] from rfl, List.append_nil,
    show n.isEmpty = false from by simpa [List.isEmpty_iff] using hn0,
    List.drop_left, takeWhile_all Char.isDigit m hmd,
    show m.isEmpty = false from by simpa [List.isEmpty_iff] using hm0,
    Bool.false_eq_true, if_false]

theorem plainSlashScan_eq (n m : List Char) (hn0 : n ≠ [])
    (hnd : n.all Char.isDigit = true) (hm0 : m ≠ []) (hmd : m.all Char.isDigit = true) :
    plainSlashScan (n ++ '/' :: m) = some (n, m) := by
  have hh := plainSlashHere_eq n m hn0 hnd hm0 hmd
  obtain ⟨a, t, rfl⟩ := List.exists_cons_of_ne_nil hn0
  rw [List.cons_append] at hh ⊢
  unfold plainSlashScan
  rw [hh]

/-! Claims -/

/-- C1 counterexample: the claim says the card number is the left operand
normalized by numeric round-trip even for the all-zero operand `000`, i.e.
`"0"`. But `extractCardInfo` (`src/server/index.js`) strips the leading-zero
run textually (`.replace(/^0+/, '')`), so on `"Charizard 000/102"` it yields
the empty string, not `"0"` (the `part_001` helper `findCardNumber`, which
does use `parseInt`, yields `"0"` on the same input). -/
theorem C1_counterexample :
    (extractCardInfo "Charizard 000/102").cardNumber = some "" ∧
    findCardNumber "Charizard 000/102" = "0" ∧ ("" : String) ≠ "0" :=
  ⟨by decide, by decide, by decide⟩

/-- C1 (amended): for every well-formed `<n>/<m>` stamp (1-3 digits each)
standing alone in the text, `extractCardInfo` returns `n` with its leading
zero run deleted (so the all-zero operand yields `""`, not `"0"`) and `m`
verbatim with leading zeros preserved, while the `part_001` helpers return
the numeric round-trip of `n` (so `000` yields `"0"`) and `m` verbatim. -/
theorem C1_amended (n m : List Char) (hn0 : n ≠ []) (hn3 : n.length ≤ 3)
    (hnd : n.all Char.isDigit = true) (hm0 : m ≠ []) (hm3 : m.length ≤ 3)
    (hmd : m.all Char.isDigit = true) :
    extractCardInfo (String.mk (n ++ '/' :: m)) =
      ⟨some (String.mk (n.dropWhile (· = '0'))), some (String.mk m), none⟩ ∧
    findCardNumber (String.mk (n ++ '/' :: m)) = Nat.repr (digitsToNat n) ∧
    findTotalCardsInSet (String.mk (n ++ '/' :: m)) = String.mk m := by
  refine ⟨extractCardInfo_slash n m hn0 hn3 hnd hm0 hm3 hmd, ?_, ?_⟩
  · unfold findCardNumber
    rw [show (String.mk (n ++ '/' :: m)).data = n ++ '/' :: m from rfl,
      plainSlashScan_eq n m hn0 hnd hm0 hmd]
  · unfold findTotalCardsInSet
    rw [show (String.mk (n ++ '/' :: m)).data = n ++ '/' :: m from rfl,
      plainSlashScan_eq n m hn0 hnd hm0 hmd]

/-- C1 witness: the amended claim applied at the concrete stamp `006/102`. -/
theorem C1_witness :
    extractCardInfo "006/102" = ⟨some "6", some "102", none⟩ ∧
    findCardNumber "006/102" = "6" ∧ findTotalCardsInSet "006/102" = "102" := by
  have h := C1_amended "006".data "102".data (by decide) (by decide) (by decide)
    (by decide) (by decide) (by decide)
  exact ⟨h.1, h.2.1, h.2.2⟩

/-- C2 counterexample: with the seed Catalog Index mapping `"203" → "swsh7"`
and a catalog returning zero cards for every query, `getCardPrice` issues
exactly one query — which does include `number:25` and `set.id:swsh7` — and
gives up; no second, name-only fallback query exists (`getCardPrice` in
`src/server/index.js` is not even given the extracted name). -/
theorem C2_counterexample :
    (getCardPrice (fun _ => Except.ok []) initialSetMap (some "25") (some "203") none).2 =
      ["number:25 set.id:swsh7"] ∧
    ((getCardPrice (fun _ => Except.ok []) initialSetMap (some "25") (some "203") none).2).length
      = 1 :=
  ⟨by decide, by decide⟩

/-- C2 (amended): for attributes cardNumber `"25"`, totalCardsInSet `"203"`
under the seed Catalog Index, the composed query includes both `number:25`
and `set.id:swsh7`; when the catalog answers that query with zero cards the
resolver issues no further query and returns the all-null quote (there is no
name-only fallback). -/
theorem C2_amended (catalog : String → Except Unit (List Card))
    (h : catalog "number:25 set.id:swsh7" = Except.ok []) :
    getCardPrice catalog initialSetMap (some "25") (some "203") none =
      (allNullQuote, ["number:25 set.id:swsh7"]) := by
  have hq : buildQuery (some "25") (some "203") none initialSetMap =
      "number:25 set.id:swsh7" := by decide
  simp only [getCardPrice, hq, h]
  rfl

/-- C2 witness: the amended claim applied to a catalog that returns zero
cards for every query. -/
theorem C2_witness :
    getCardPrice (fun _ => Except.ok []) initialSetMap (some "25") (some "203") none =
      (allNullQuote, ["number:25 set.id:swsh7"]) :=
  C2_amended _ rfl

/-- C3: when no vocabulary name occurs in any trimmed, uppercased line, no
stage keyword occurs in the uppercased text, and neither the slash regex nor
the promo regex matches, each extraction helper independently returns its
sentinel: name and stage are `"Unknown"`, and the number record is all-null.
Being total functions, the helpers never raise. -/
theorem C3_confirmed (names : List String) (text : String)
    (hname : ∀ l ∈ splitLines text.data, ∀ nm ∈ names,
      containsSub (jsToUpper (trimChars l)) nm.data = false)
    (hstage : ∀ st ∈ evolutionStages, containsS (upperOf text) st = false)
    (hslash : slashScan (jsToUpper text.data) = none)
    (hpromo : promoScan (jsToUpper text.data) = none) :
    findPokemonName names text = "Unknown" ∧
    findEvolutionStage text = "Unknown" ∧
    extractCardInfo text = ⟨none, none, none⟩ := by
  refine ⟨?_, ?_, ?_⟩
  · have h1 : ((splitLines text.data).map fun l => jsToUpper (trimChars l)).findSome?
        (fun line => names.find? fun nm => containsSub line nm.data) = none := by
      rw [List.findSome?_eq_none_iff]
      intro line hline
      rw [List.mem_map] at hline
      obtain ⟨l, hl, rfl⟩ := hline
      rw [List.find?_eq_none]
      intro nm hnm
      simp [hname l hl nm hnm]
    simp only [findPokemonName, h1]
  · have hV : containsS (upperOf text) "V" = false := hstage "V" (by decide)
    have hEF : containsS (upperOf text) "EVOLVES FROM" = false :=
      containsS_false_mono (by decide) hV
    have hsc : stageScan (upperOf text) = "Unknown" := by
      unfold stageScan
      rw [List.find?_eq_none.mpr ?_]
      intro st hst
      simp [hstage st hst]
    simp [findEvolutionStage, hEF, hsc]
  · simp only [extractCardInfo, hslash, hpromo]

/-- C3 witness: the claim applied to the text `"zzz"` and a two-name
vocabulary. -/
theorem C3_witness :
    findPokemonName ["PIKACHU", "CHARIZARD"] "zzz" = "Unknown" ∧
    findEvolutionStage "zzz" = "Unknown" ∧
    extractCardInfo "zzz" = ⟨none, none, none⟩ :=
  C3_confirmed ["PIKACHU", "CHARIZARD"] "zzz" (by decide) (by decide) (by decide) (by decide)

/-- C4 counterexample: the text `"EVOLVES FROM EEVEE BASIC"` carries an
evolves-from marker, yet `findEvolutionStage` classifies it as `"BASIC"`:
because no `"STAGE"` token occurs, the special branch falls through to the
ordered keyword scan, whose first hit is `BASIC` — refuting the claim's
"never returns BASIC for such a text". -/
theorem C4_counterexample : findEvolutionStage "EVOLVES FROM EEVEE BASIC" = "BASIC" := by
  decide

/-- C4 (amended): for a text containing an evolves-from marker, the special
branch prefers STAGE 2 (on `STAGE2`/`STAGE 2`) over STAGE 1 (on any other
`STAGE` occurrence), and whenever some `"STAGE"` token occurs at all the
result is never `"BASIC"`; only a marker text with no `"STAGE"` substring
falls through to the general keyword scan (which can yield `"BASIC"`, as the
counterexample shows). -/
theorem C4_amended (text : String)
    (hef : containsS (upperOf text) "EVOLVES FROM" = true) :
    (containsS (upperOf text) "STAGE2" = true ∨ containsS (upperOf text) "STAGE 2" = true →
      findEvolutionStage text = "STAGE 2") ∧
    (containsS (upperOf text) "STAGE2" = false → containsS (upperOf text) "STAGE 2" = false →
      containsS (upperOf text) "STAGE" = true → findEvolutionStage text = "STAGE 1") ∧
    (containsS (upperOf text) "STAGE" = true → findEvolutionStage text ≠ "BASIC") := by
  refine ⟨?_, ?_, ?_⟩
  · rintro (h | h) <;> simp [findEvolutionStage, hef, h]
  · intro h1 h2 h3
    simp [findEvolutionStage, hef, h1, h2, h3]
  · intro h3
    cases hS2a : containsS (upperOf text) "STAGE2" with
    | true =>
      simp only [findEvolutionStage, hef, hS2a, if_true, Bool.true_or]
      decide
    | false =>
      cases hS2b : containsS (upperOf text) "STAGE 2" with
      | true =>
        simp only [findEvolutionStage, hef, hS2a, hS2b, if_true, Bool.or_true]
        decide
      | false =>
        simp only [findEvolutionStage, hef, hS2a, hS2b, h3, Bool.or_self,
          Bool.or_true, Bool.false_eq_true, if_false, if_true]
        decide

/-- C4 witness: the amended claim's STAGE 2 preference at a concrete
evolves-from text. -/
theorem C4_witness : findEvolutionStage "EVOLVES FROM AAA STAGE 2" = "STAGE 2" :=
  (C4_amended "EVOLVES FROM AAA STAGE 2" (by decide)).1 (Or.inr (by decide))

/-- A catalog card whose cardmarket average is present but zero, while the
tcgplayer normal market price is 5. -/
def cardZeroCm : Card :=
  { name := none, number := none, setId := none, setName := none, rarity := none,
    subtypes := none, cardmarketAvg := some 0, tcgplayerNormal := some 5,
    tcgplayerHolofoil := none }

/-- C5 counterexample: the claim says a present-but-zero earlier price is
still selected in preference to a later one. But the JS `||` chain treats 0
as absent, so with cardmarket average 0 and tcgplayer normal 5 the resolver
selects 5, not 0. -/
theorem C5_counterexample :
    ((getCardPrice (fun _ => Except.ok [cardZeroCm]) initialSetMap (some "1") none none).1).selectedPrice
      = some 5 ∧ some (5 : Rat) ≠ some (0 : Rat) :=
  ⟨by decide, by decide⟩

/-- The `a || b || c || null` chain skips absent AND zero values alike, so it
equals the first present nonzero value of the three, else null. -/
theorem numOrElse_chain (a b c : Option Rat) :
    numOrElse a (numOrElse b (numOrElse c none)) =
      ([a, b, c].filterMap id).find? fun v => decide (v ≠ 0) := by
  rcases a with _ | x <;> rcases b with _ | y <;> rcases c with _ | z <;>
    simp [numOrElse, List.find?] <;> split_ifs <;> simp_all

/-- C5 (amended): `selectedPrice` is the first value among the cardmarket
average, the tcgplayer normal market and the tcgplayer holofoil market that
is present and nonzero, and null when none is (a present-but-zero price is
skipped exactly like an absent one, because JS `||` tests truthiness). -/
theorem C5_amended (cards : List Card) :
    (quoteOfCards cards).selectedPrice =
      (match cards.head? with
        | none => none
        | some c =>
          ([c.cardmarketAvg, c.tcgplayerNormal, c.tcgplayerHolofoil].filterMap id).find?
            fun v => decide (v ≠ 0)) := by
  cases cards with
  | nil => rfl
  | cons c t =>
    simp only [quoteOfCards, List.head?_cons]
    exact numOrElse_chain c.cardmarketAvg c.tcgplayerNormal c.tcgplayerHolofoil

theorem promoHere_mem (cs p d : List Char) (h : promoHere cs = some (p, d)) :
    ∃ q ∈ promoPrefixes, p = q.data := by
  unfold promoHere at h
  obtain ⟨q, hq, hfq⟩ := List.exists_of_findSome?_eq_some h
  refine ⟨q, hq, ?_⟩
  cases hpre : q.data.isPrefixOf cs with
  | false =>
    rw [hpre] at hfq
    simp at hfq
  | true =>
    rw [hpre, if_pos rfl] at hfq
    obtain ⟨a, _, hpd⟩ := Option.map_eq_some'.mp hfq
    exact (Prod.ext_iff.mp hpd).1.symm

theorem promoScanAux_mem (cs : List Char) : ∀ (b : Bool) (p d : List Char),
    promoScanAux b cs = some (p, d) → ∃ q ∈ promoPrefixes, p = q.data := by
  induction cs with
  | nil =>
    intro b p d h
    simp [promoScanAux] at h
  | cons c rest ih =>
    intro b p d h
    cases b with
    | true => exact ih (isWordChar c) p d h
    | false =>
      have hdef : promoScanAux false (c :: rest) =
          match promoHere (c :: rest) with
          | some r => some r
          | none => promoScanAux (isWordChar c) rest := rfl
      rw [hdef] at h
      cases hh : promoHere (c :: rest) with
      | some r =>
        rw [hh] at h
        have h2 : some r = some (p, d) := h
        obtain rfl : r = (p, d) := Option.some.inj h2
        exact promoHere_mem _ _ _ hh
      | none =>
        rw [hh] at h
        exact ih (isWordChar c) p d h

theorem buildQuery_override (num sid : String) (t : Option String)
    (sm : List (String × String)) (hn : num.data ≠ []) (hs : sid.data ≠ []) :
    buildQuery (some num) t (some sid) sm = "number:" ++ num ++ " set.id:" ++ sid := by
  have h1 : jsTruthyStr (some num) = true := by
    simp [jsTruthyStr, List.isEmpty_iff, hn]
  have h2 : jsTruthyStr (some sid) = true := by
    simp [jsTruthyStr, List.isEmpty_iff, hs]
  have h3 : ("number:" ++ num).data.isEmpty = false := by
    simp [String.data_append]
  simp only [buildQuery, h1, h2, appendClause, h3, Option.getD_some, eq_self_iff_true,
    if_true, Bool.false_eq_true, if_false]
  apply String.ext
  simp [String.data_append, List.append_assoc]

/-- C6: when the slash pattern is absent but the promo pattern matches with
capture groups `p` (era prefix) and `d` (digits), extraction returns
`cardNumber = p ++ d`, leaves `totalCardsInSet` unset, and resolves the set
id directly from the static prefix table; and for EVERY state of the Catalog
Index the Price Resolver's query then carries that promo-derived set id — a
`totalCardsInSet` lookup is never consulted. -/
theorem C6_confirmed (text : String) (p d : List Char)
    (hslash : slashScan (jsToUpper text.data) = none)
    (hpromo : promoScan (jsToUpper text.data) = some (p, d)) :
    ∃ sid : String,
      promoPrefixToSetId (String.mk p) = some sid ∧
      extractCardInfo text = ⟨some (String.mk (p ++ d)), none, some sid⟩ ∧
      ∀ (sm : List (String × String)) (catalog : String → Except Unit (List Card)),
        (getCardPrice catalog sm (some (String.mk (p ++ d))) none (some sid)).2 =
          ["number:" ++ String.mk (p ++ d) ++ " set.id:" ++ sid] := by
  obtain ⟨q, hq, rfl⟩ := promoScanAux_mem _ false p d hpromo
  have hqd : q.data ≠ [] := by
    fin_cases hq <;> decide
  obtain ⟨sid, hsid1, hsid2⟩ :
      ∃ sid : String, promoPrefixToSetId q = some sid ∧ sid.data ≠ [] := by
    fin_cases hq
    exacts [⟨"swshp", by decide, by decide⟩, ⟨"smp", by decide, by decide⟩,
      ⟨"xyp", by decide, by decide⟩, ⟨"bwp", by decide, by decide⟩,
      ⟨"dpp", by decide, by decide⟩, ⟨"hgssp", by decide, by decide⟩]
  refine ⟨sid, ?_, ?_, ?_⟩
  · show promoPrefixToSetId q = some sid
    exact hsid1
  · simp only [extractCardInfo, hslash, hpromo]
    rw [show promoPrefixToSetId (String.mk q.data) = some sid from hsid1]
  · intro sm catalog
    have hnum : (String.mk (q.data ++ d)).data ≠ [] := by
      show q.data ++ d ≠ []
      intro hcon
      exact hqd (List.append_eq_nil.mp hcon).1
    have hbq := buildQuery_override (String.mk (q.data ++ d)) sid none sm hnum hsid2
    simp only [getCardPrice, hbq]
    cases hcat : catalog ("number:" ++ String.mk (q.data ++ d) ++ " set.id:" ++ sid) <;>
      simp [hcat]

/-- C6 witness: the claim applied to the concrete promo text `"SWSH123"`. -/
theorem C6_witness :
    ∃ sid : String,
      promoPrefixToSetId (String.mk "SWSH".data) = some sid ∧
      extractCardInfo "SWSH123" = ⟨some (String.mk ("SWSH".data ++ "123".data)), none, some sid⟩ ∧
      ∀ (sm : List (String × String)) (catalog : String → Except Unit (List Card)),
        (getCardPrice catalog sm (some (String.mk ("SWSH".data ++ "123".data))) none
          (some sid)).2 =
          ["number:" ++ String.mk ("SWSH".data ++ "123".data) ++ " set.id:" ++ sid] :=
  C6_confirmed "SWSH123" "SWSH".data "123".data (by decide) (by decide)

/-- C7: when every catalog call fails (any transport/auth/parse rejection,
modelled by the call returning an error), the failure is caught and the
pipeline still assembles and returns the persisted record, with every
price-derived field null and the locally computed fields (evolution stage,
full text, image URL) intact. -/
theorem C7_confirmed (names : List String) (sm : List (String × String))
    (catalog : String → Except Unit (List Card)) (text imageUrl : String)
    (hfail : ∀ q, catalog q = Except.error ()) :
    pipelineRecord names sm catalog text imageUrl =
      { name := none, number := none, setId := none, setName := none, rarity := none,
        subtypes := none, cardmarketPrice := none, tcgplayerPrice := none,
        selectedPrice := none, evolution := findEvolutionStage text, fullText := text,
        imageUrl := imageUrl } := by
  simp [pipelineRecord, getCardPrice, hfail, allNullQuote]

/-- C7 witness: the claim applied to a catalog whose every call fails. -/
theorem C7_witness :
    pipelineRecord [] [] (fun _ => Except.error ()) "ZZZ" "u" =
      { name := none, number := none, setId := none, setName := none, rarity := none,
        subtypes := none, cardmarketPrice := none, tcgplayerPrice := none,
        selectedPrice := none, evolution := findEvolutionStage "ZZZ", fullText := "ZZZ",
        imageUrl := "u" } :=
  C7_confirmed [] [] _ "ZZZ" "u" (fun _ => rfl)

/-- C8: a request body without a comma delimiter is rejected with 400 and no
storage write happens; a decoded payload failing image validation (bad JPEG
signature or failing metadata probe) is written once to the diagnostic
namespace `invalid-images/<id>.jpg`, the request is rejected with 400, and
no metadata object (`<id>.json`) is written. -/
theorem C8_confirmed (decodeB64 : String → List Nat) (sharpOk : List Nat → Bool)
    (ocr : List Nat → Option String) (names : List String) (sm : List (String × String))
    (catalog : String → Except Unit (List Card)) (id bucket region : String) :
    (∀ s : String, s.data.contains ',' = false →
      processCard (some s) decodeB64 sharpOk ocr names sm catalog id bucket region =
        (.badRequest "Invalid base64 image", [])) ∧
    (∀ s : String, s.data.contains ',' = true →
      isValidImage sharpOk (decodeB64 (payloadOf s)) = false →
      processCard (some s) decodeB64 sharpOk ocr names sm catalog id bucket region =
        (.badRequest "Invalid or corrupted image",
          [⟨"invalid-images/" ++ id ++ ".jpg", WriteBody.bytes (decodeB64 (payloadOf s))⟩]) ∧
      ∀ w ∈ (processCard (some s) decodeB64 sharpOk ocr names sm catalog id bucket region).2,
        w.key ≠ id ++ ".json") := by
  constructor
  · intro s hs
    have hs' : ¬ (',' ∈ s.data) := by
      intro hm
      have he : List.elem ',' s.data = true := List.elem_iff.mpr hm
      rw [show List.elem ',' s.data = s.data.contains ',' from rfl, hs] at he
      exact Bool.false_ne_true he
    simp [processCard, hs, hs']
  · intro s hs hv
    have hmem : ',' ∈ s.data := List.mem_of_elem_eq_true hs
    have ht : jsTruthyStr (some s) = true := by
      cases hd : s.data with
      | nil =>
        rw [hd] at hs
        simp [List.contains] at hs
      | cons c l => simp [jsTruthyStr, hd]
    have hmain : processCard (some s) decodeB64 sharpOk ocr names sm catalog id bucket region =
        (.badRequest "Invalid or corrupted image",
          [⟨"invalid-images/" ++ id ++ ".jpg", WriteBody.bytes (decodeB64 (payloadOf s))⟩]) := by
      simp [processCard, ht, hs, hv, hmem]
    refine ⟨hmain, ?_⟩
    intro w hw
    rw [hmain] at hw
    simp only [List.mem_singleton] at hw
    subst hw
    intro hkey
    have hlen := congrArg (fun z : String => z.data.length) hkey
    simp only [String.data_append, List.length_append] at hlen
    rw [show ("invalid-images/" : String).data.length = 15 from rfl,
      show (".jpg" : String).data.length = 4 from rfl,
      show (".json" : String).data.length = 5 from rfl] at hlen
    omega

/-- C8 witness: both branches at concrete inputs — `"abc"` (no comma) and
`"x,y"` with a failing image validation. -/
theorem C8_witness :
    processCard (some "abc") (fun _ => [0, 1]) (fun _ => false) (fun _ => none) [] []
      (fun _ => Except.error ()) "i" "b" "r" = (.badRequest "Invalid base64 image", []) ∧
    processCard (some "x,y") (fun _ => [0, 1]) (fun _ => false) (fun _ => none) [] []
      (fun _ => Except.error ()) "i" "b" "r" =
      (.badRequest "Invalid or corrupted image",
        [⟨"invalid-images/i.jpg", WriteBody.bytes [0, 1]⟩]) := by
  have h := C8_confirmed (fun _ => [0, 1]) (fun _ => false) (fun _ => none) [] []
    (fun _ => Except.error ()) "i" "b" "r"
  exact ⟨h.1 "abc" (by decide), (h.2 "x,y" (by decide) (by decide)).1⟩

/-- C9: before any successful refresh — in particular after any number of
failed refresh attempts, which leave the table untouched — a lookup of a
total present in the hardcoded seed table returns its fixed identifier
(`"203" ↦ "swsh7"`), and a lookup of any absent total returns `none` rather
than raising. -/
theorem C9_confirmed :
    lookupSM initialSetMap "203" = some "swsh7" ∧
    (∀ t : String, (∀ e ∈ initialSetMap, e.1 ≠ t) → lookupSM initialSetMap t = none) ∧
    (∀ errs : List Unit,
      errs.foldl (fun m _ => fetchSetData m (Except.error ())) initialSetMap =
        initialSetMap) := by
  refine ⟨by decide, ?_, ?_⟩
  · intro t h
    unfold lookupSM
    rw [List.find?_eq_none.mpr ?_]
    · rfl
    · intro e he
      simp [h e he]
  · intro errs
    induction errs with
    | nil => rfl
    | cons e t ih => exact ih

/-- C9 witness: the seed lookup of `"203"` together with the lookup of the
absent total `"999"`. -/
theorem C9_witness :
    lookupSM initialSetMap "203" = some "swsh7" ∧ lookupSM initialSetMap "999" = none :=
  ⟨C9_confirmed.1, C9_confirmed.2.1 "999" (by decide)⟩

/-- C10: because the keyword loop tests the stages in the fixed order BASIC,
STAGE 1, STAGE 2, V, VSTAR, VMAX by substring containment, any text that
contains VSTAR, VMAX — or merely the letter V anywhere — while containing
none of BASIC, STAGE 1, STAGE 2 and not triggering the evolves-from branch,
is classified as `"V"` (never `"VSTAR"`/`"VMAX"`, and not `"Unknown"`). -/
theorem C10_confirmed (text : String)
    (hb : containsS (upperOf text) "BASIC" = false)
    (hs1 : containsS (upperOf text) "STAGE 1" = false)
    (hs2 : containsS (upperOf text) "STAGE 2" = false)
    (hef : ¬(containsS (upperOf text) "EVOLVES FROM" = true ∧
      containsS (upperOf text) "STAGE" = true))
    (hv : containsS (upperOf text) "VSTAR" = true ∨ containsS (upperOf text) "VMAX" = true ∨
      containsS (upperOf text) "V" = true) :
    findEvolutionStage text = "V" := by
  have hV : containsS (upperOf text) "V" = true := by
    rcases hv with h | h | h
    · exact containsS_mono (by decide) h
    · exact containsS_mono (by decide) h
    · exact h
  have hscan : stageScan (upperOf text) = "V" := by
    unfold stageScan evolutionStages
    rw [List.find?_cons_of_neg _ (by simp [hb]), List.find?_cons_of_neg _ (by simp [hs1]),
      List.find?_cons_of_neg _ (by simp [hs2]), List.find?_cons_of_pos _ (by simp [hV])]
  cases hEF : containsS (upperOf text) "EVOLVES FROM" with
  | false => simp [findEvolutionStage, hEF, hscan]
  | true =>
    have hS : containsS (upperOf text) "STAGE" = false := by
      cases hS : containsS (upperOf text) "STAGE" with
      | false => rfl
      | true => exact absurd ⟨hEF, hS⟩ hef
    have hS2' : containsS (upperOf text) "STAGE2" = false :=
      containsS_false_mono (by decide) hS
    have hS1' : containsS (upperOf text) "STAGE1" = false :=
      containsS_false_mono (by decide) hS
    simp [findEvolutionStage, hEF, hS, hS2', hS1', hs1, hs2, hscan]

/-- C10 witness: the claim applied to the concrete text `"CHARIZARD VMAX"`. -/
theorem C10_witness : findEvolutionStage "CHARIZARD VMAX" = "V" :=
  C10_confirmed "CHARIZARD VMAX" (by decide) (by decide) (by decide) (by decide)
    (Or.inr (Or.inl (by decide)))

end PokeBackend
